import Mathlib

/-!
Shallow embedding of the Rx DMA ring of the stm32f4x9 Ethernet driver.

Embedded from `src/rx.rs` and `src/lib.rs`:
* `RxDescriptor` — the 4×32-bit hardware descriptor record, kept together
  with its heap address (`as_raw_ptr`);
* `RxRingEntry`, `RxRing` — descriptor/buffer pairs and the ring with its
  software cursor `next_entry`;
* `EthDma` — the DMA register block fields the Rx code touches
  (`dmardlar`, `dmaomr.sr`, `dmarpdr`, `dmasr.rps`); a write to the poll
  demand register is modelled by incrementing a write counter;
* heap allocation (`Heap.alloc` with 8-byte `ALIGNMENT`) is modelled by a
  bump allocator `AllocState` that returns 8-aligned, strictly fresh
  addresses.

`Buffer` (`src/buffer.rs`) is not part of the supplied sources and is
modelled from the spec, see its doc comment.
-/

namespace Stm32Eth

/-- Truncation modulus of a 32-bit register word (Rust `as u32`). -/
def U32_MOD : Nat := 2 ^ 32

/-- Owned by DMA engine (rx.rs `RXDESC_0_OWN = 1 << 31`). -/
def RXDESC_0_OWN : Nat := 2 ^ 31

/-- First descriptor flag (rx.rs `RXDESC_0_FS = 1 << 9`). -/
def RXDESC_0_FS : Nat := 2 ^ 9

/-- Last descriptor flag (rx.rs `RXDESC_0_LS = 1 << 8`). -/
def RXDESC_0_LS : Nat := 2 ^ 8

/-- Error summary flag (rx.rs `RXDESC_0_ES = 1 << 15`). -/
def RXDESC_0_ES : Nat := 2 ^ 15

/-- Frame length mask (rx.rs `RXDESC_0_FL_MASK = 0x3FFF`). -/
def RXDESC_0_FL_MASK : Nat := 0x3FFF

/-- Frame length shift (rx.rs `RXDESC_0_FL_SHIFT = 16`). -/
def RXDESC_0_FL_SHIFT : Nat := 16

/-- Receive buffer size mask (rx.rs `RXDESC_1_RBS_MASK = 0x0fff << 0`). -/
def RXDESC_1_RBS_MASK : Nat := 0x0fff

/-- Second address chained flag (rx.rs `RXDESC_1_RCH = 1 << 14`). -/
def RXDESC_1_RCH : Nat := 2 ^ 14

/-- End of ring flag (rx.rs `RXDESC_1_RER = 1 << 15`). -/
def RXDESC_1_RER : Nat := 2 ^ 15

/-- Complement of `RXDESC_1_RBS_MASK` inside a u32 (Rust `!RXDESC_1_RBS_MASK`). -/
def NOT_RBS_MASK : Nat := 0xFFFFF000

/-- Per-buffer capacity used by `Eth::new` (lib.rs `MTU = 1518`). -/
def MTU : Nat := 1518

/-- Alignment of descriptor and buffer allocations (lib.rs `ALIGNMENT = 0b1000`). -/
def ALIGNMENT : Nat := 8

/-- Bump-allocator model of the heap: `nextAddr` is the lowest address not
yet handed out.  Every address previously returned is `< nextAddr`. -/
structure AllocState where
  nextAddr : Nat
deriving DecidableEq, Repr

/-- Round `a` up to the next multiple of 8 (the heap returns `ALIGNMENT`-aligned
blocks). -/
def align8 (a : Nat) : Nat := (a + 7) / 8 * 8

/-- Allocate `sz` bytes: returns an 8-aligned fresh address and bumps the
allocator (by at least one byte, so successive allocations are distinct). -/
def AllocState.alloc (st : AllocState) (sz : Nat) : Nat × AllocState :=
  (align8 st.nextAddr, ⟨align8 st.nextAddr + max sz 1⟩)

/-- Modelled from the spec: `Buffer` (its source file `src/buffer.rs` is not
among the supplied sources).  Per spec §3 it "owns one heap region of fixed
capacity, base address aligned to 8 bytes; tracks a logical length ≤ capacity;
exposes its raw address and capacity for descriptor programming". -/
structure Buffer where
  /-- Raw base address of the heap region (`as_ptr`). -/
  addr : Nat
  /-- Fixed capacity of the region (`capacity()`). -/
  capacity : Nat
  /-- Logical length, kept ≤ capacity per the spec invariant. -/
  len : Nat
deriving DecidableEq, Repr

/-- Modelled from the spec: allocate a fresh `Buffer` of the given capacity
(logical length starts at 0 ≤ capacity). -/
def Buffer.new (capacity : Nat) (st : AllocState) : Buffer × AllocState :=
  match st.alloc capacity with
  | (a, st2) => (⟨a, capacity, 0⟩, st2)

/-- Modelled from the spec: set the logical length.  The spec invariant is
"logical length ≤ capacity", so the stored length is clamped to the
capacity. -/
def Buffer.set_len (b : Buffer) (l : Nat) : Buffer :=
  { b with len := min l b.capacity }

/-- Rx descriptor: the 4 32-bit words `rdesc[0..3]` together with the heap
address of the record (`as_raw_ptr`). -/
structure RxDescriptor where
  addr : Nat
  w0 : Nat
  w1 : Nat
  w2 : Nat
  w3 : Nat
deriving DecidableEq, Repr

/-- Rust `RxDescriptor::default()` placed at heap address `a`:
`write(0,0); write(1, RXDESC_1_RCH); write(2,0); write(3,0)`. -/
def RxDescriptor.mkDefault (a : Nat) : RxDescriptor :=
  ⟨a, 0, RXDESC_1_RCH, 0, 0⟩

/-- Rust `is_owned`: `(read(0) & RXDESC_0_OWN) == RXDESC_0_OWN`. -/
def RxDescriptor.is_owned (d : RxDescriptor) : Bool :=
  (d.w0 &&& RXDESC_0_OWN) == RXDESC_0_OWN

/-- Rust `set_owned`: `modify(0, |w| w | RXDESC_0_OWN)`. -/
def RxDescriptor.set_owned (d : RxDescriptor) : RxDescriptor :=
  { d with w0 := d.w0 ||| RXDESC_0_OWN }

/-- Rust `has_error`: `(read(0) & RXDESC_0_ES) == RXDESC_0_ES`. -/
def RxDescriptor.has_error (d : RxDescriptor) : Bool :=
  (d.w0 &&& RXDESC_0_ES) == RXDESC_0_ES

/-- Rust `is_first`: `(read(0) & RXDESC_0_FS) == RXDESC_0_FS`. -/
def RxDescriptor.is_first (d : RxDescriptor) : Bool :=
  (d.w0 &&& RXDESC_0_FS) == RXDESC_0_FS

/-- Rust `is_last`: `(read(0) & RXDESC_0_LS) == RXDESC_0_LS`. -/
def RxDescriptor.is_last (d : RxDescriptor) : Bool :=
  (d.w0 &&& RXDESC_0_LS) == RXDESC_0_LS

/-- Rust `set_buffer1(buffer, len)`:
`write(2, buffer as u32); modify(1, |w| (w & !RBS_MASK) | (len as u32) << 0)`. -/
def RxDescriptor.set_buffer1 (d : RxDescriptor) (buffer : Nat) (len : Nat) : RxDescriptor :=
  { d with
    w2 := buffer % U32_MOD,
    w1 := (d.w1 &&& NOT_RBS_MASK) ||| (len % U32_MOD) }

/-- Rust `set_buffer2(buffer)` (next-descriptor pointer in chained mode):
`write(3, buffer as u32)`. -/
def RxDescriptor.set_buffer2 (d : RxDescriptor) (buffer : Nat) : RxDescriptor :=
  { d with w3 := buffer % U32_MOD }

/-- Rust `set_end_of_ring`: `modify(1, |w| w | RXDESC_1_RER)`. -/
def RxDescriptor.set_end_of_ring (d : RxDescriptor) : RxDescriptor :=
  { d with w1 := d.w1 ||| RXDESC_1_RER }

/-- Observation (not a source accessor): whether the end-of-ring bit
(bit 15 of word 1, the bit `set_end_of_ring` sets) is set. -/
def RxDescriptor.endOfRingSet (d : RxDescriptor) : Bool :=
  d.w1.testBit 15

/-- Frame length extraction used on the success path of `take_received`:
`(read(0) >> RXDESC_0_FL_SHIFT) & RXDESC_0_FL_MASK`. -/
def frameLength (d : RxDescriptor) : Nat :=
  (d.w0 >>> RXDESC_0_FL_SHIFT) &&& RXDESC_0_FL_MASK

/-- Rust `RxRingEntry`: a descriptor and the buffer it currently references. -/
structure RxRingEntry where
  desc : RxDescriptor
  buffer : Buffer
deriving DecidableEq, Repr

/-- Rust `RxRingEntry::new(capacity)`: allocate a default descriptor (16
bytes, 8-aligned), allocate a Buffer, program buffer pointer + capacity, set
OWN=hardware. -/
def RxRingEntry.new (capacity : Nat) (st : AllocState) : RxRingEntry × AllocState :=
  match st.alloc 16 with
  | (descAddr, st1) =>
    match Buffer.new capacity st1 with
    | (buf, st2) =>
      (⟨((RxDescriptor.mkDefault descAddr).set_buffer1 buf.addr buf.capacity).set_owned,
        buf⟩,
       st2)

/-- Rust `RxRingEntry::set_next_buffer`: chain to the next entry's descriptor
address, or (for the last entry) store a null next pointer and set the
end-of-ring flag. -/
def RxRingEntry.set_next_buffer (e : RxRingEntry) (next : Option RxRingEntry) : RxRingEntry :=
  match next with
  | some nextBuffer => { e with desc := e.desc.set_buffer2 nextBuffer.desc.addr }
  | none => { e with desc := (e.desc.set_buffer2 0).set_end_of_ring }

/-- Rust `RxRingEntry::take_received`.  Returns the received buffer (if any),
the updated entry, and the allocator state (a fresh Buffer is allocated on the
success path).  The diagnostic writes to the semihosting console in the error
and fragment arms are not modelled. -/
def RxRingEntry.take_received (e : RxRingEntry) (st : AllocState) :
    Option Buffer × RxRingEntry × AllocState :=
  if e.desc.is_owned then (none, e, st)
  else if e.desc.has_error then (none, { e with desc := e.desc.set_owned }, st)
  else if e.desc.is_first && e.desc.is_last then
    match Buffer.new e.buffer.capacity st with
    | (newBuffer, st2) =>
      (some (e.buffer.set_len (frameLength e.desc)),
       ⟨(e.desc.set_buffer1 newBuffer.addr newBuffer.capacity).set_owned, newBuffer⟩,
       st2)
  else (none, { e with desc := e.desc.set_owned }, st)

/-- DMA register block fields touched by the Rx code.  A write of 1 to the
receive poll demand register `dmarpdr` is modelled by incrementing
`dmarpdr_writes`; `dmasr_rps` is the 3-bit receive process status field
`dmasr.rps`, set by hardware. -/
structure EthDma where
  dmardlar : Nat
  dmaomr_sr : Bool
  dmarpdr_writes : Nat
  dmasr_rps : Nat
deriving DecidableEq, Repr

/-- Running state of the `RxRing` (rx.rs `RunningState`). -/
inductive RunningState where
  | Unknown
  | Stopped
  | Running
deriving DecidableEq, BEq, Repr

/-- Rust `RunningState::is_running`: `*self == RunningState::Running`. -/
def RunningState.is_running (s : RunningState) : Bool :=
  s == RunningState.Running

/-- Decode of the 3-bit `dmasr.rps` field, exactly the match arms of
`RxRing::running_state`. -/
def decodeRps (c : Nat) : RunningState :=
  match c with
  | 0b000 => RunningState.Stopped
  | 0b001 => RunningState.Running
  | 0b011 => RunningState.Running
  | 0b100 => RunningState.Stopped
  | 0b101 => RunningState.Running
  | 0b111 => RunningState.Running
  | _ => RunningState.Unknown

/-- Rust `RxRing`: per-buffer capacity, entries, and the software cursor. -/
structure RxRing where
  buffer_size : Nat
  buffers : List RxRingEntry
  next_entry : Nat
deriving DecidableEq, Repr

/-- Rust `RxRing::new(buffer_size)`: empty entry list, cursor 0. -/
def RxRing.new (buffer_size : Nat) : RxRing :=
  ⟨buffer_size, [], 0⟩

/-- Rust `RxRing::running_state(eth_dma)`: decodes `dmasr.rps` (ignores
`self`). -/
def RxRing.running_state (_r : RxRing) (hw : EthDma) : RunningState :=
  decodeRps hw.dmasr_rps

/-- Rust `RxRing::demand_poll(eth_dma)`: `dmarpdr.write(rpd = 1)`. -/
def RxRing.demand_poll (_r : RxRing) (hw : EthDma) : EthDma :=
  { hw with dmarpdr_writes := hw.dmarpdr_writes + 1 }

/-- Fresh entries pushed by the growth loop in `RxRing::start` (the
`while buffers.len() < ring_length` loop), in push order. -/
def mkNewEntries (n : Nat) (capacity : Nat) (st : AllocState) :
    List RxRingEntry × AllocState :=
  match n with
  | 0 => ([], st)
  | n + 1 =>
    match RxRingEntry.new capacity st with
    | (e, st1) =>
      match mkNewEntries n capacity st1 with
      | (rest, st2) => (e :: rest, st2)

/-- Re-chaining loop of `RxRing::start`: every entry is linked to its
successor's descriptor via `set_next_buffer(Some(..))`; the last entry gets
`set_next_buffer(None)` (null next pointer + end-of-ring flag). -/
def chainEntries (es : List RxRingEntry) : List RxRingEntry :=
  match es with
  | [] => []
  | e :: rest =>
    match rest with
    | [] => [e.set_next_buffer none]
    | e2 :: _ => e.set_next_buffer (some e2) :: chainEntries rest

/-- Rust `RxRing::start(ring_length, eth_dma)`: grow the entry list to
`ring_length` (never shrink), re-chain all entries, reset the cursor, write
the ring base register `dmardlar`, set the DMA start-receive bit, and issue
a demand poll.  Returns `none` exactly when the Rust code would panic on the
`self.buffers[0]` index (empty ring). -/
def RxRing.start (r : RxRing) (ring_length : Nat) (hw : EthDma) (st : AllocState) :
    Option (RxRing × EthDma × AllocState) :=
  match mkNewEntries (ring_length - r.buffers.length) r.buffer_size st with
  | (news, st2) =>
    match chainEntries (r.buffers ++ news) with
    | [] => none
    | e0 :: rest =>
      some ({ r with buffers := e0 :: rest, next_entry := 0 },
            RxRing.demand_poll r
              { hw with dmardlar := e0.desc.addr % U32_MOD, dmaomr_sr := true },
            st2)

/-- Rust `RxRing::recv_next(eth_dma)`.  Returns `none` exactly when the Rust
code would panic on the `self.buffers[self.next_entry]` index (out of
bounds, e.g. an empty ring); otherwise `some (result, ring, dma, alloc)`
where `result` is the `Option<Buffer>` the Rust function returns.  The cursor
advances (wrapping) only when a packet is returned; afterwards, if the
observed running state is not `Running`, a demand poll is issued. -/
def RxRing.recv_next (r : RxRing) (hw : EthDma) (st : AllocState) :
    Option (Option Buffer × RxRing × EthDma × AllocState) :=
  match r.buffers[r.next_entry]? with
  | none => none
  | some entry =>
    match entry.take_received st with
    | (res, entry2, st2) =>
      some (res,
        { r with
          buffers := r.buffers.set r.next_entry entry2,
          next_entry :=
            match res with
            | some _ =>
              if r.next_entry + 1 ≥ r.buffers.length then 0 else r.next_entry + 1
            | none => r.next_entry },
        if (r.running_state hw).is_running then hw else r.demand_poll hw,
        st2)

/-- Address list of a sequence of ring entries (used to state chain
properties). -/
def descAddrs (es : List RxRingEntry) : List Nat :=
  es.map (fun e => e.desc.addr)

/-- One step of the hardware's chained-mode descriptor fetch: look up the
descriptor at address `a`; if its end-of-ring flag is set the engine returns
to the ring base register `base`, otherwise it follows the next-descriptor
pointer in word 3. -/
def chainNext (base : Nat) (es : List RxRingEntry) (a : Nat) : Option Nat :=
  match es.find? (fun e => e.desc.addr == a) with
  | none => none
  | some e => some (if e.desc.endOfRingSet then base else e.desc.w3)

/-- Walk `steps` next-pointer steps from descriptor address `a`. -/
def chainWalk (base : Nat) (es : List RxRingEntry) : Nat → Nat → Option Nat
  | 0, a => some a
  | steps + 1, a =>
    match chainNext base es a with
    | none => none
    | some a2 => chainWalk base es steps a2

/-! Concrete fixtures used by witnesses and counterexamples. -/

/-- Allocator with nothing handed out yet. -/
def st0 : AllocState := ⟨0⟩

/-- Allocator whose low addresses are already in use. -/
def st5000 : AllocState := ⟨5000⟩

/-- Register block with rps = 0b000. -/
def hw0 : EthDma := ⟨0, false, 0, 0⟩

/-- Register block observed with rps = 0b100 (receive descriptor
unavailable, a Stopped code). -/
def hwStopped : EthDma := ⟨0, true, 0, 4⟩

/-- Entry whose descriptor is still owned by hardware. -/
def ownedEntryFix : RxRingEntry :=
  ⟨⟨100, RXDESC_0_OWN, RXDESC_1_RCH ||| 1518, 116, 0⟩, ⟨116, 1518, 0⟩⟩

/-- Entry holding the first fragment of a multi-descriptor frame
(OWN=software, FS set, LS clear). -/
def fragEntryFix : RxRingEntry :=
  ⟨⟨0, RXDESC_0_FS, RXDESC_1_RCH ||| 1518, 16, 0⟩, ⟨16, 1518, 0⟩⟩

/-- Entry holding an error frame (OWN=software, error summary set). -/
def errEntryFix : RxRingEntry :=
  ⟨⟨0, RXDESC_0_ES ||| RXDESC_0_FS ||| RXDESC_0_LS, RXDESC_1_RCH ||| 1518, 16, 0⟩,
   ⟨16, 1518, 0⟩⟩

/-- Entry holding a completed single-segment frame of length 100. -/
def succEntryFix : RxRingEntry :=
  ⟨⟨0, RXDESC_0_FS ||| RXDESC_0_LS ||| (100 <<< 16), RXDESC_1_RCH ||| 1518, 16, 0⟩,
   ⟨16, 1518, 0⟩⟩

/-- Entry whose status word reports the maximal 14-bit frame length 0x3FFF. -/
def bigEntryFix : RxRingEntry :=
  ⟨⟨0, RXDESC_0_FS ||| RXDESC_0_LS ||| (0x3FFF <<< 16), RXDESC_1_RCH ||| 1518, 16, 0⟩,
   ⟨16, 1518, 0⟩⟩

/-! Helper lemmas. -/

/-- Writing back the element a list already holds at `i` leaves the list
unchanged. -/
theorem set_of_getElem? {α : Type} : ∀ (l : List α) (i : Nat) (x : α),
    l[i]? = some x → l.set i x = l
  | [], _, _, h => by simp at h
  | a :: t, 0, x, h => by
    simp only [List.getElem?_cons_zero, Option.some.injEq] at h
    simp [h]
  | a :: t, i + 1, x, h => by
    simp only [List.getElem?_cons_succ] at h
    simp [List.set, set_of_getElem? t i x h]

/-- Setting a bit mask by or-ing makes the mask test succeed. -/
theorem lor_and_self (a b : Nat) : (a ||| b) &&& b = b := by
  apply Nat.eq_of_testBit_eq
  intro i
  rw [Nat.testBit_land, Nat.testBit_lor]
  cases Nat.testBit a i <;> cases Nat.testBit b i <;> rfl

/-- A descriptor is hardware-owned after `set_owned`. -/
theorem set_owned_is_owned (d : RxDescriptor) : d.set_owned.is_owned = true := by
  simp [RxDescriptor.is_owned, RxDescriptor.set_owned, lor_and_self]

/-- Alignment rounds addresses up. -/
theorem le_align8 (a : Nat) : a ≤ align8 a := by
  unfold align8
  have h1 := Nat.mod_add_div' (a + 7) 8
  have h2 : (a + 7) % 8 < 8 := Nat.mod_lt _ (by norm_num)
  omega

/-! Claim theorems. -/

/-- C5: `running_state` is a pure function of the 3-bit receive-process
status field: 0b000 and 0b100 map to Stopped; 0b001, 0b011, 0b101 and 0b111
map to Running; the remaining codes 0b010 and 0b110 map to Unknown. -/
theorem running_state_pure_decode :
    (∀ (r : RxRing) (hw : EthDma), r.running_state hw = decodeRps hw.dmasr_rps) ∧
    decodeRps 0 = RunningState.Stopped ∧
    decodeRps 1 = RunningState.Running ∧
    decodeRps 2 = RunningState.Unknown ∧
    decodeRps 3 = RunningState.Running ∧
    decodeRps 4 = RunningState.Stopped ∧
    decodeRps 5 = RunningState.Running ∧
    decodeRps 6 = RunningState.Unknown ∧
    decodeRps 7 = RunningState.Running :=
  ⟨fun _ _ => rfl, rfl, rfl, rfl, rfl, rfl, rfl, rfl, rfl⟩

/-- C10: calling `recv_next` on a ring whose entry set is empty (as built by
`Eth::new` with `rx_ring_len = 0`, which constructs `RxRing::new(MTU)` and
never calls `start`) hits the out-of-bounds index `self.buffers[0]`; the
panic is modelled by the `none` result, distinct from the ordinary
"no packet" result `some (none, ..)`. -/
theorem recv_next_empty_ring_panics (hw : EthDma) (st : AllocState) :
    (RxRing.new MTU).recv_next hw st = none :=
  rfl

/-- C8: when the cursor entry's descriptor is hardware-owned, `recv_next`
returns no packet and leaves the ring (cursor, descriptor and Buffer) and
the allocator unchanged. -/
theorem recv_next_hw_owned (r : RxRing) (hw : EthDma) (st : AllocState)
    (entry : RxRingEntry)
    (hcur : r.buffers[r.next_entry]? = some entry)
    (hown : entry.desc.is_owned = true) :
    ∃ hw2, r.recv_next hw st = some (none, r, hw2, st) := by
  refine ⟨if (r.running_state hw).is_running then hw else r.demand_poll hw, ?_⟩
  simp [RxRing.recv_next, RxRingEntry.take_received, hcur, hown,
    set_of_getElem? _ _ _ hcur]

/-- Witness for C8. -/
theorem recv_next_hw_owned_witness :
    ∃ hw2, RxRing.recv_next ⟨1518, [ownedEntryFix], 0⟩ hw0 st5000 =
      some (none, ⟨1518, [ownedEntryFix], 0⟩, hw2, st5000) :=
  recv_next_hw_owned ⟨1518, [ownedEntryFix], 0⟩ hw0 st5000 ownedEntryFix
    (by rfl) (by decide)

/-- C4: when the cursor entry's descriptor is software-owned with the error
summary flag set, `recv_next` returns no packet (the error is absorbed, not
surfaced: the call still returns normally), flips the descriptor back to
OWN=hardware, and leaves its buffer pointer word and the entry's Buffer
unchanged. -/
theorem recv_next_error_frame (r : RxRing) (hw : EthDma) (st : AllocState)
    (entry : RxRingEntry)
    (hcur : r.buffers[r.next_entry]? = some entry)
    (hown : entry.desc.is_owned = false)
    (herr : entry.desc.has_error = true) :
    ∃ r2 hw2,
      r.recv_next hw st = some (none, r2, hw2, st) ∧
      r2.buffers[r.next_entry]? = some ⟨entry.desc.set_owned, entry.buffer⟩ ∧
      entry.desc.set_owned.is_owned = true ∧
      entry.desc.set_owned.w2 = entry.desc.w2 ∧
      r2.next_entry = r.next_entry := by
  have hlt : r.next_entry < r.buffers.length :=
    (List.getElem?_eq_some_iff.mp hcur).1
  refine ⟨{ r with buffers :=
      r.buffers.set r.next_entry ⟨entry.desc.set_owned, entry.buffer⟩ },
    if (r.running_state hw).is_running then hw else r.demand_poll hw,
    ?_, ?_, set_owned_is_owned _, rfl, rfl⟩
  · simp [RxRing.recv_next, RxRingEntry.take_received, hcur, hown, herr]
  · simp [List.getElem?_set_self hlt]

/-- Witness for C4. -/
theorem recv_next_error_frame_witness :
    ∃ r2 hw2,
      RxRing.recv_next ⟨1518, [errEntryFix, ownedEntryFix], 0⟩ hw0 st5000 =
        some (none, r2, hw2, st5000) ∧
      r2.buffers[0]? = some ⟨errEntryFix.desc.set_owned, errEntryFix.buffer⟩ ∧
      errEntryFix.desc.set_owned.is_owned = true ∧
      errEntryFix.desc.set_owned.w2 = errEntryFix.desc.w2 ∧
      r2.next_entry = 0 :=
  recv_next_error_frame ⟨1518, [errEntryFix, ownedEntryFix], 0⟩ hw0 st5000
    errEntryFix (by rfl) (by decide) (by decide)

/-- C3 counterexample: a multi-descriptor fragment at the cursor of a
2-entry ring is dropped (descriptor handed back to hardware) but the cursor
does NOT advance: it stays at 0 instead of moving to 1 as the claim states. -/
theorem recv_next_fragment_cursor_counterexample :
    (RxRing.recv_next ⟨1518, [fragEntryFix, ownedEntryFix], 0⟩ hw0 st5000).map
        (fun x => (x.1, x.2.1.next_entry,
          x.2.1.buffers.map (fun e => e.desc.is_owned))) =
      some (none, 0, [true, true]) := by
  decide

/-- C3 (amended): when the cursor entry's descriptor is software-owned,
error-free, and not both first- and last-segment, `recv_next` returns no
packet, flips the descriptor back to OWN=hardware, and leaves the cursor
unchanged (the cursor advances only when a packet is returned). -/
theorem recv_next_fragment (r : RxRing) (hw : EthDma) (st : AllocState)
    (entry : RxRingEntry)
    (hcur : r.buffers[r.next_entry]? = some entry)
    (hown : entry.desc.is_owned = false)
    (herr : entry.desc.has_error = false)
    (hfl : (entry.desc.is_first && entry.desc.is_last) = false) :
    ∃ r2 hw2,
      r.recv_next hw st = some (none, r2, hw2, st) ∧
      r2.buffers[r.next_entry]? = some ⟨entry.desc.set_owned, entry.buffer⟩ ∧
      entry.desc.set_owned.is_owned = true ∧
      r2.next_entry = r.next_entry := by
  have hlt : r.next_entry < r.buffers.length :=
    (List.getElem?_eq_some_iff.mp hcur).1
  refine ⟨{ r with buffers :=
      r.buffers.set r.next_entry ⟨entry.desc.set_owned, entry.buffer⟩ },
    if (r.running_state hw).is_running then hw else r.demand_poll hw,
    ?_, ?_, set_owned_is_owned _, rfl⟩
  · simp [RxRing.recv_next, RxRingEntry.take_received, hcur, hown, herr, hfl]
  · simp [List.getElem?_set_self hlt]

/-- Witness for the amended C3. -/
theorem recv_next_fragment_witness :
    ∃ r2 hw2,
      RxRing.recv_next ⟨1518, [fragEntryFix, ownedEntryFix], 0⟩ hw0 st5000 =
        some (none, r2, hw2, st5000) ∧
      r2.buffers[0]? = some ⟨fragEntryFix.desc.set_owned, fragEntryFix.buffer⟩ ∧
      fragEntryFix.desc.set_owned.is_owned = true ∧
      r2.next_entry = 0 :=
  recv_next_fragment ⟨1518, [fragEntryFix, ownedEntryFix], 0⟩ hw0 st5000
    fragEntryFix (by rfl) (by decide) (by decide) (by decide)

/-- C6 counterexample: with the cursor entry still hardware-owned (nothing
is consumed) and the engine observed in a Stopped code (rps = 0b100),
`recv_next` nevertheless writes the receive poll demand register once,
contradicting "no demand-poll is issued when nothing was consumed". -/
theorem demand_poll_unconsumed_counterexample :
    (RxRing.recv_next ⟨1518, [ownedEntryFix], 0⟩ hwStopped st5000).map
        (fun x => (x.1, x.2.2.1.dmarpdr_writes)) = some (none, 1) := by
  decide

/-- C6 (amended): `recv_next` issues exactly one demand-poll when the
receive engine is observed not Running (Stopped or Unknown), and none when
it is observed Running — independently of whether an entry was consumed. -/
theorem recv_next_demand_poll (r : RxRing) (hw : EthDma) (st : AllocState)
    (entry : RxRingEntry)
    (hcur : r.buffers[r.next_entry]? = some entry) :
    ∃ res r2 hw2 st2,
      r.recv_next hw st = some (res, r2, hw2, st2) ∧
      hw2.dmarpdr_writes =
        (if (r.running_state hw).is_running then hw.dmarpdr_writes
         else hw.dmarpdr_writes + 1) ∧
      hw2.dmardlar = hw.dmardlar ∧
      hw2.dmaomr_sr = hw.dmaomr_sr ∧
      hw2.dmasr_rps = hw.dmasr_rps := by
  rcases htr : entry.take_received st with ⟨res, entry2, st2⟩
  refine ⟨res,
    { r with
      buffers := r.buffers.set r.next_entry entry2,
      next_entry :=
        match res with
        | some _ =>
          if r.next_entry + 1 ≥ r.buffers.length then 0 else r.next_entry + 1
        | none => r.next_entry },
    if (r.running_state hw).is_running then hw else r.demand_poll hw,
    st2, ?_, ?_, ?_, ?_, ?_⟩
  · simp only [RxRing.recv_next, hcur, htr]
    cases res <;> rfl
  all_goals cases (r.running_state hw).is_running <;> simp [RxRing.demand_poll]

/-- Witness for the amended C6. -/
theorem recv_next_demand_poll_witness :
    ∃ res r2 hw2 st2,
      RxRing.recv_next ⟨1518, [ownedEntryFix], 0⟩ hwStopped st5000 =
        some (res, r2, hw2, st2) ∧
      hw2.dmarpdr_writes =
        (if ((⟨1518, [ownedEntryFix], 0⟩ : RxRing).running_state
            hwStopped).is_running then hwStopped.dmarpdr_writes
         else hwStopped.dmarpdr_writes + 1) ∧
      hw2.dmardlar = hwStopped.dmardlar ∧
      hw2.dmaomr_sr = hwStopped.dmaomr_sr ∧
      hw2.dmasr_rps = hwStopped.dmasr_rps :=
  recv_next_demand_poll ⟨1518, [ownedEntryFix], 0⟩ hwStopped st5000
    ownedEntryFix (by rfl)

/-- Success path of `take_received` spelled out: the filled buffer is handed
out truncated to the reported frame length, a fresh Buffer is allocated and
programmed into the descriptor, and the descriptor is handed back to
hardware. -/
theorem take_received_success_eq (e : RxRingEntry) (st : AllocState)
    (hown : e.desc.is_owned = false) (herr : e.desc.has_error = false)
    (hfs : e.desc.is_first = true) (hls : e.desc.is_last = true) :
    e.take_received st =
      (some (e.buffer.set_len (frameLength e.desc)),
       ⟨(e.desc.set_buffer1 (align8 st.nextAddr) e.buffer.capacity).set_owned,
        ⟨align8 st.nextAddr, e.buffer.capacity, 0⟩⟩,
       ⟨align8 st.nextAddr + max e.buffer.capacity 1⟩) := by
  simp [RxRingEntry.take_received, hown, herr, hfs, hls, Buffer.new,
    AllocState.alloc]

/-- Success path of `recv_next` spelled out. -/
theorem recv_next_success_eq (r : RxRing) (hw : EthDma) (st : AllocState)
    (entry : RxRingEntry)
    (hcur : r.buffers[r.next_entry]? = some entry)
    (hown : entry.desc.is_owned = false)
    (herr : entry.desc.has_error = false)
    (hfs : entry.desc.is_first = true)
    (hls : entry.desc.is_last = true) :
    r.recv_next hw st =
      some (some (entry.buffer.set_len (frameLength entry.desc)),
        { r with
          buffers := r.buffers.set r.next_entry
            ⟨(entry.desc.set_buffer1 (align8 st.nextAddr)
                entry.buffer.capacity).set_owned,
             ⟨align8 st.nextAddr, entry.buffer.capacity, 0⟩⟩,
          next_entry :=
            if r.next_entry + 1 ≥ r.buffers.length then 0
            else r.next_entry + 1 },
        if (r.running_state hw).is_running then hw else r.demand_poll hw,
        ⟨align8 st.nextAddr + max entry.buffer.capacity 1⟩) := by
  simp only [RxRing.recv_next, hcur,
    take_received_success_eq entry st hown herr hfs hls]

/-- C1: for a started ring whose cursor entry's descriptor is
software-owned, error-free, and both first- and last-segment with reported
frame length L ≤ capacity, `recv_next` returns a Buffer of logical length L
(the old buffer of the entry), hands the descriptor back to OWN=hardware,
and leaves it referencing a freshly allocated Buffer whose address differs
from the address of the returned Buffer (freshness of the bump allocator is
the hypothesis that the old buffer's address lies below the allocation
frontier). -/
theorem recv_next_success (r : RxRing) (hw : EthDma) (st : AllocState)
    (entry : RxRingEntry)
    (hcur : r.buffers[r.next_entry]? = some entry)
    (hown : entry.desc.is_owned = false)
    (herr : entry.desc.has_error = false)
    (hfs : entry.desc.is_first = true)
    (hls : entry.desc.is_last = true)
    (hlen : frameLength entry.desc ≤ entry.buffer.capacity)
    (hfresh : entry.buffer.addr < st.nextAddr) :
    ∃ pkt r2 hw2 st2 entry2,
      r.recv_next hw st = some (some pkt, r2, hw2, st2) ∧
      pkt.len = frameLength entry.desc ∧
      pkt.addr = entry.buffer.addr ∧
      r2.buffers[r.next_entry]? = some entry2 ∧
      entry2.desc.is_owned = true ∧
      entry2.buffer.addr ≠ pkt.addr ∧
      entry2.desc.w2 = entry2.buffer.addr % U32_MOD := by
  have hlt : r.next_entry < r.buffers.length :=
    (List.getElem?_eq_some_iff.mp hcur).1
  have halign : st.nextAddr ≤ align8 st.nextAddr := le_align8 _
  refine ⟨entry.buffer.set_len (frameLength entry.desc), _, _, _,
    ⟨(entry.desc.set_buffer1 (align8 st.nextAddr)
        entry.buffer.capacity).set_owned,
     ⟨align8 st.nextAddr, entry.buffer.capacity, 0⟩⟩,
    recv_next_success_eq r hw st entry hcur hown herr hfs hls,
    ?_, rfl, ?_, set_owned_is_owned _, ?_, rfl⟩
  · simp [Buffer.set_len, Nat.min_eq_left hlen]
  · simp [List.getElem?_set_self hlt]
  · simp only [Buffer.set_len]
    omega

/-- Witness for C1: a completed 100-byte frame at the cursor of a 2-entry
ring; the returned buffer sits at address 16, the replacement at 5000. -/
theorem recv_next_success_witness :
    ∃ pkt r2 hw2 st2 entry2,
      RxRing.recv_next ⟨1518, [succEntryFix, ownedEntryFix], 0⟩ hw0 st5000 =
        some (some pkt, r2, hw2, st2) ∧
      pkt.len = frameLength succEntryFix.desc ∧
      pkt.addr = succEntryFix.buffer.addr ∧
      r2.buffers[0]? = some entry2 ∧
      entry2.desc.is_owned = true ∧
      entry2.buffer.addr ≠ pkt.addr ∧
      entry2.desc.w2 = entry2.buffer.addr % U32_MOD :=
  recv_next_success ⟨1518, [succEntryFix, ownedEntryFix], 0⟩ hw0 st5000
    succEntryFix (by rfl) (by decide) (by decide) (by decide) (by decide)
    (by decide) (by decide)

/-- C9: a Buffer's logical length never exceeds its capacity (`set_len`
keeps the spec invariant, fresh Buffers start at length 0), and in
particular the Buffer returned by a successful `recv_next` has length at
most the entry's per-buffer capacity whatever 14-bit frame length the
descriptor's status word reports. -/
theorem buffer_len_le_capacity :
    (∀ (b : Buffer) (l : Nat), (b.set_len l).len ≤ (b.set_len l).capacity) ∧
    (∀ (c : Nat) (st : AllocState),
      (Buffer.new c st).1.len ≤ (Buffer.new c st).1.capacity) ∧
    ∀ (r : RxRing) (hw : EthDma) (st : AllocState) (entry : RxRingEntry),
      r.buffers[r.next_entry]? = some entry →
      entry.desc.is_owned = false →
      entry.desc.has_error = false →
      entry.desc.is_first = true →
      entry.desc.is_last = true →
      ∃ pkt r2 hw2 st2,
        r.recv_next hw st = some (some pkt, r2, hw2, st2) ∧
        pkt.len ≤ entry.buffer.capacity ∧
        pkt.capacity = entry.buffer.capacity := by
  refine ⟨fun b l => ?_, fun c st => ?_, ?_⟩
  · simp [Buffer.set_len]
  · simp [Buffer.new, AllocState.alloc]
  · intro r hw st entry hcur hown herr hfs hls
    exact ⟨entry.buffer.set_len (frameLength entry.desc), _, _, _,
      recv_next_success_eq r hw st entry hcur hown herr hfs hls,
      by simp [Buffer.set_len], rfl⟩

/-- Witness for C9: the status word reports the maximal 14-bit frame length
0x3FFF = 16383, yet the returned Buffer's length stays ≤ the 1518-byte
capacity. -/
theorem buffer_len_le_capacity_witness :
    ∃ pkt r2 hw2 st2,
      RxRing.recv_next ⟨1518, [bigEntryFix], 0⟩ hw0 st5000 =
        some (some pkt, r2, hw2, st2) ∧
      pkt.len ≤ bigEntryFix.buffer.capacity ∧
      pkt.capacity = bigEntryFix.buffer.capacity :=
  buffer_len_le_capacity.2.2 ⟨1518, [bigEntryFix], 0⟩ hw0 st5000 bigEntryFix
    (by rfl) (by decide) (by decide) (by decide) (by decide)

/-- C2: evaluating `start(2)` followed by `start(5)` on a fresh ring.  The
regrown 5-entry ring keeps the first two entries' buffers and its next
pointers form the insertion-order chain 0→1→2→3→4 with a null pointer at
the end, but TWO entries carry the end-of-ring flag: entry 1 keeps the
stale flag from the 2-entry chaining (with a non-null next pointer), and
entry 4 carries the new one.  This contradicts the claimed "exactly one
end-of-ring flag". -/
theorem restart_grow_two_end_of_ring_flags :
    ∃ x2 x5,
      (RxRing.new MTU).start 2 hw0 st0 = some x2 ∧
      x2.1.start 5 x2.2.1 x2.2.2 = some x5 ∧
      x5.1.buffers.length = 5 ∧
      (x5.1.buffers.map (fun e => e.buffer)).take 2 =
        (x2.1.buffers.map (fun e => e.buffer)).take 2 ∧
      x5.1.buffers.map (fun e => e.desc.w3) = [1536, 3072, 4608, 6144, 0] ∧
      x5.1.buffers.map (fun e => e.desc.endOfRingSet) =
        [false, true, false, false, true] ∧
      x5.1.buffers.countP (fun e => e.desc.endOfRingSet) = 2 := by
  refine ⟨_, _, rfl, rfl, ?_, ?_, ?_, ?_, ?_⟩ <;> decide

/-! Allocation facts about fresh ring entries (toward C7). -/

/-- A fresh entry's descriptor sits at or above the previous frontier. -/
theorem rxEntryNew_addr_ge (c : Nat) (st : AllocState) :
    st.nextAddr ≤ (RxRingEntry.new c st).1.desc.addr :=
  le_align8 _

/-- A fresh entry's descriptor sits below the new allocation frontier. -/
theorem rxEntryNew_addr_lt (c : Nat) (st : AllocState) :
    (RxRingEntry.new c st).1.desc.addr < (RxRingEntry.new c st).2.nextAddr := by
  show align8 st.nextAddr < align8 (align8 st.nextAddr + max 16 1) + max c 1
  have h2 := le_align8 (align8 st.nextAddr + max 16 1)
  have h3 : (1 : Nat) ≤ max 16 1 := le_max_right 16 1
  omega

/-- Entry construction only moves the allocation frontier up. -/
theorem rxEntryNew_mono (c : Nat) (st : AllocState) :
    st.nextAddr ≤ (RxRingEntry.new c st).2.nextAddr := by
  show st.nextAddr ≤ align8 (align8 st.nextAddr + max 16 1) + max c 1
  have h1 := le_align8 st.nextAddr
  have h2 := le_align8 (align8 st.nextAddr + max 16 1)
  omega

/-- A fresh entry's word 1 is `RCH ||| capacity`, whose end-of-ring bit is
clear as long as the capacity fits the 12-bit buffer-size field. -/
theorem rxEntryNew_not_eor (c : Nat) (st : AllocState) (hc : c < 0x1000) :
    (RxRingEntry.new c st).1.desc.endOfRingSet = false := by
  have hw1 : (RxRingEntry.new c st).1.desc.w1 =
      (RXDESC_1_RCH &&& NOT_RBS_MASK) ||| (c % U32_MOD) := rfl
  have hmod : c % U32_MOD = c := Nat.mod_eq_of_lt (by unfold U32_MOD; omega)
  have hlt : (RXDESC_1_RCH &&& NOT_RBS_MASK) ||| (c % U32_MOD) < 2 ^ 15 := by
    rw [hmod]
    exact Nat.or_lt_two_pow (by decide) (by omega)
  unfold RxDescriptor.endOfRingSet
  rw [hw1]
  exact Nat.testBit_lt_two_pow hlt

/-- Unfolding of the entry growth loop. -/
theorem mkNewEntries_succ (n c : Nat) (st : AllocState) :
    mkNewEntries (n + 1) c st =
      ((RxRingEntry.new c st).1 ::
         (mkNewEntries n c (RxRingEntry.new c st).2).1,
       (mkNewEntries n c (RxRingEntry.new c st).2).2) :=
  rfl

/-- The growth loop creates exactly the requested number of entries. -/
theorem mkNewEntries_length : ∀ (n c : Nat) (st : AllocState),
    (mkNewEntries n c st).1.length = n
  | 0, _, _ => rfl
  | n + 1, c, st => by
    rw [mkNewEntries_succ]
    simp [mkNewEntries_length n c (RxRingEntry.new c st).2]

/-- The growth loop only moves the allocation frontier up. -/
theorem mkNewEntries_mono : ∀ (n c : Nat) (st : AllocState),
    st.nextAddr ≤ (mkNewEntries n c st).2.nextAddr
  | 0, _, _ => Nat.le_refl _
  | n + 1, c, st => by
    rw [mkNewEntries_succ]
    dsimp only
    have h1 := rxEntryNew_mono c st
    have h2 := mkNewEntries_mono n c (RxRingEntry.new c st).2
    omega

/-- Every grown entry's descriptor address lies between the starting and the
final allocation frontier. -/
theorem mkNewEntries_mem_bounds : ∀ (n c : Nat) (st : AllocState),
    ∀ e ∈ (mkNewEntries n c st).1,
      st.nextAddr ≤ e.desc.addr ∧
      e.desc.addr < (mkNewEntries n c st).2.nextAddr
  | 0, _, _ => by intro e he; simp [mkNewEntries] at he
  | n + 1, c, st => by
    intro e he
    rw [mkNewEntries_succ] at he ⊢
    dsimp only at he ⊢
    simp only [List.mem_cons] at he
    rcases he with rfl | he
    · refine ⟨rxEntryNew_addr_ge c st, ?_⟩
      have h1 := rxEntryNew_addr_lt c st
      have h2 := mkNewEntries_mono n c (RxRingEntry.new c st).2
      omega
    · have hb := mkNewEntries_mem_bounds n c (RxRingEntry.new c st).2 e he
      have h1 := rxEntryNew_mono c st
      exact ⟨by omega, hb.2⟩

/-- Grown entries have strictly increasing descriptor addresses. -/
theorem mkNewEntries_pairwise : ∀ (n c : Nat) (st : AllocState),
    (mkNewEntries n c st).1.Pairwise (fun a b => a.desc.addr < b.desc.addr)
  | 0, _, _ => List.Pairwise.nil
  | n + 1, c, st => by
    rw [mkNewEntries_succ]
    dsimp only
    refine List.Pairwise.cons ?_
      (mkNewEntries_pairwise n c (RxRingEntry.new c st).2)
    intro b hb
    have hbnd := mkNewEntries_mem_bounds n c (RxRingEntry.new c st).2 b hb
    have h1 := rxEntryNew_addr_lt c st
    omega

/-- No grown entry carries the end-of-ring flag before chaining. -/
theorem mkNewEntries_not_eor : ∀ (n c : Nat) (st : AllocState), c < 0x1000 →
    ∀ e ∈ (mkNewEntries n c st).1, e.desc.endOfRingSet = false
  | 0, _, _, _ => by intro e he; simp [mkNewEntries] at he
  | n + 1, c, st, hc => by
    intro e he
    rw [mkNewEntries_succ] at he
    simp only [List.mem_cons] at he
    rcases he with rfl | he
    · exact rxEntryNew_not_eor c st hc
    · exact mkNewEntries_not_eor n c (RxRingEntry.new c st).2 hc e he

/-! Structure of the re-chained list (toward C7). -/

/-- Chaining does not move a descriptor. -/
theorem set_next_buffer_addr (e : RxRingEntry) (o : Option RxRingEntry) :
    (e.set_next_buffer o).desc.addr = e.desc.addr := by
  cases o <;> rfl

/-- Chaining to a successor leaves word 1 (hence the end-of-ring bit)
unchanged. -/
theorem set_next_some_eor (e b : RxRingEntry) :
    (e.set_next_buffer (some b)).desc.endOfRingSet = e.desc.endOfRingSet :=
  rfl

/-- Chaining to a successor stores its descriptor address in word 3. -/
theorem set_next_some_w3 (e b : RxRingEntry) :
    (e.set_next_buffer (some b)).desc.w3 = b.desc.addr % U32_MOD :=
  rfl

/-- Terminating the chain sets the end-of-ring bit. -/
theorem set_next_none_eor (e : RxRingEntry) :
    (e.set_next_buffer none).desc.endOfRingSet = true := by
  show (e.desc.w1 ||| RXDESC_1_RER).testBit 15 = true
  rw [Nat.testBit_lor]
  have h : Nat.testBit RXDESC_1_RER 15 = true := by decide
  rw [h, Bool.or_true]

/-- Terminating the chain nulls the next pointer. -/
theorem set_next_none_w3 (e : RxRingEntry) :
    (e.set_next_buffer none).desc.w3 = 0 := by
  show (0 : Nat) % U32_MOD = 0
  exact Nat.zero_mod _

/-- Unfolding of the chaining loop on two or more entries. -/
theorem chainEntries_cons2 (e e2 : RxRingEntry) (t : List RxRingEntry) :
    chainEntries (e :: e2 :: t) =
      e.set_next_buffer (some e2) :: chainEntries (e2 :: t) :=
  rfl

/-- Unfolding of the chaining loop on a single entry. -/
theorem chainEntries_one (e : RxRingEntry) :
    chainEntries [e] = [e.set_next_buffer none] :=
  rfl

/-- Chaining preserves the number of entries. -/
theorem chainEntries_length : ∀ (es : List RxRingEntry),
    (chainEntries es).length = es.length
  | [] => rfl
  | [_] => rfl
  | e :: e2 :: t => by
    rw [chainEntries_cons2]
    simp [chainEntries_length (e2 :: t)]

/-- Chaining preserves the descriptor addresses, position by position. -/
theorem chainEntries_descAddrs : ∀ (es : List RxRingEntry),
    descAddrs (chainEntries es) = descAddrs es
  | [] => rfl
  | [e] => by
    rw [chainEntries_one]
    simp [descAddrs, set_next_buffer_addr]
  | e :: e2 :: t => by
    rw [chainEntries_cons2]
    have ih := chainEntries_descAddrs (e2 :: t)
    simp only [descAddrs, List.map_cons] at ih ⊢
    rw [set_next_buffer_addr]
    exact congrArg (e.desc.addr :: ·) ih

/-- An interior chained entry is its source entry linked to its successor. -/
theorem chainEntries_getElem?_mid : ∀ (es : List RxRingEntry) (i : Nat),
    i + 1 < es.length →
    ∃ a b, es[i]? = some a ∧ es[i + 1]? = some b ∧
      (chainEntries es)[i]? = some (a.set_next_buffer (some b))
  | [], i, h => by simp at h
  | [_], i, h => by simp at h
  | e :: e2 :: t, 0, _ =>
    ⟨e, e2, by simp, by simp, by rw [chainEntries_cons2]; simp⟩
  | e :: e2 :: t, i + 1, h => by
    obtain ⟨a, b, h1, h2, h3⟩ :=
      chainEntries_getElem?_mid (e2 :: t) i (by simpa using h)
    exact ⟨a, b, by simpa using h1, by simpa using h2,
      by rw [chainEntries_cons2]; simpa using h3⟩

/-- The last chained entry is its source entry with the chain terminated. -/
theorem chainEntries_getElem?_last : ∀ (es : List RxRingEntry), es ≠ [] →
    ∃ a, es[es.length - 1]? = some a ∧
      (chainEntries es)[es.length - 1]? = some (a.set_next_buffer none)
  | [], h => absurd rfl h
  | [e], _ => ⟨e, by simp, by rw [chainEntries_one]; simp⟩
  | e :: e2 :: t, _ => by
    obtain ⟨a, h1, h2⟩ := chainEntries_getElem?_last (e2 :: t) (by simp)
    refine ⟨a, ?_, ?_⟩
    · simpa using h1
    · rw [chainEntries_cons2]
      simpa using h2

/-- Exactly one chained entry carries the end-of-ring flag when none of the
source entries did. -/
theorem chainEntries_countP_eor : ∀ (es : List RxRingEntry),
    (∀ e ∈ es, e.desc.endOfRingSet = false) → es ≠ [] →
    (chainEntries es).countP (fun e => e.desc.endOfRingSet) = 1
  | [], _, hne => absurd rfl hne
  | [e], _, _ => by
    rw [chainEntries_one]
    simp [List.countP_cons, set_next_none_eor]
  | e :: e2 :: t, h, _ => by
    rw [chainEntries_cons2, List.countP_cons]
    have ih := chainEntries_countP_eor (e2 :: t)
      (fun x hx => h x (List.mem_cons_of_mem e hx)) (by simp)
    simp [ih, set_next_some_eor, h e (List.mem_cons_self e (e2 :: t))]

/-- In a list with strictly increasing descriptor addresses, looking up the
address of the element at position `i` finds exactly that element. -/
theorem find?_addr_of_pairwise : ∀ (l : List RxRingEntry),
    l.Pairwise (fun a b => a.desc.addr < b.desc.addr) →
    ∀ (i : Nat) (x : RxRingEntry), l[i]? = some x →
    l.find? (fun e => e.desc.addr == x.desc.addr) = some x
  | [], _, i, x, h => by simp at h
  | a :: t, hpw, 0, x, h => by
    simp only [List.getElem?_cons_zero, Option.some.injEq] at h
    subst h
    exact List.find?_cons_of_pos t (by simp)
  | a :: t, hpw, i + 1, x, h => by
    simp only [List.getElem?_cons_succ] at h
    have hmem : x ∈ t := List.getElem?_mem h
    have hlt : a.desc.addr < x.desc.addr :=
      (List.pairwise_cons.mp hpw).1 x hmem
    rw [List.find?_cons_of_neg t (by simp; omega)]
    exact find?_addr_of_pairwise t (List.pairwise_cons.mp hpw).2 i x h

/-- Walking the remaining steps of a well-formed chain from any position
lands back on the ring base. -/
theorem chainWalk_to_base (base : Nat) (cs : List RxRingEntry)
    (hpw : cs.Pairwise (fun a b => a.desc.addr < b.desc.addr))
    (hstep : ∀ (i : Nat) (x : RxRingEntry), i + 1 < cs.length →
      cs[i]? = some x →
      x.desc.endOfRingSet = false ∧
      ∃ y, cs[i + 1]? = some y ∧ x.desc.w3 = y.desc.addr)
    (hlast : ∀ x, cs[cs.length - 1]? = some x →
      x.desc.endOfRingSet = true) :
    ∀ (j k : Nat) (x : RxRingEntry), k < cs.length → j = cs.length - k →
      cs[k]? = some x →
      chainWalk base cs j x.desc.addr = some base := by
  intro j
  induction j with
  | zero => intro k x hk hj _; omega
  | succ j ih =>
    intro k x hk hj hx
    have hfind := find?_addr_of_pairwise cs hpw k x hx
    by_cases hkl : k + 1 < cs.length
    · obtain ⟨heor, y, hy, hw3⟩ := hstep k x hkl hx
      have hnext : chainNext base cs x.desc.addr = some y.desc.addr := by
        simp [chainNext, hfind, heor, hw3]
      simp only [chainWalk, hnext]
      exact ih (k + 1) y hkl (by omega) hy
    · have hk1 : k = cs.length - 1 := by omega
      have heor := hlast x (by rw [← hk1]; exact hx)
      have hnext : chainNext base cs x.desc.addr = some base := by
        simp [chainNext, hfind, heor]
      have hj0 : j = 0 := by omega
      subst hj0
      simp only [chainWalk, hnext]

/-- C7: starting a fresh ring with N ≥ 1 entries (per-buffer capacity
fitting the 12-bit buffer-size field, all allocations within the 32-bit
address space) registers entry 0's descriptor address in the ring base
register, yields N entries of which exactly one carries the end-of-ring
flag, and walking the next-descriptor pointers N times from entry 0 (with
the end-of-ring flag returning to the registered base) arrives back at
entry 0. -/
theorem start_fresh_ring_chain (N cap : Nat) (hw : EthDma) (st : AllocState)
    (hN : 1 ≤ N) (hcap : cap < 0x1000)
    (h32 : (mkNewEntries N cap st).2.nextAddr ≤ U32_MOD) :
    ∃ r2 hw2 st2 e0,
      (RxRing.new cap).start N hw st = some (r2, hw2, st2) ∧
      r2.buffers[0]? = some e0 ∧
      hw2.dmardlar = e0.desc.addr ∧
      r2.buffers.length = N ∧
      r2.buffers.countP (fun e => e.desc.endOfRingSet) = 1 ∧
      chainWalk hw2.dmardlar r2.buffers N e0.desc.addr =
        some e0.desc.addr := by
  rcases hmk : mkNewEntries N cap st with ⟨news, st2⟩
  have hfst : (mkNewEntries N cap st).1 = news := by rw [hmk]
  have hsnd : (mkNewEntries N cap st).2 = st2 := by rw [hmk]
  have hlen : news.length = N := by rw [← hfst]; exact mkNewEntries_length N cap st
  have hne : news ≠ [] := by
    intro hnil
    rw [hnil] at hlen
    simp at hlen
    omega
  have h32v : st2.nextAddr ≤ U32_MOD := by rw [← hsnd]; exact h32
  have hbounds : ∀ e ∈ news, e.desc.addr < U32_MOD := by
    intro e he
    have hb := mkNewEntries_mem_bounds N cap st e (by rw [hfst]; exact he)
    rw [hsnd] at hb
    omega
  have hnoeor : ∀ e ∈ news, e.desc.endOfRingSet = false := by
    intro e he
    exact mkNewEntries_not_eor N cap st hcap e (by rw [hfst]; exact he)
  have hpwnews : news.Pairwise (fun a b => a.desc.addr < b.desc.addr) := by
    rw [← hfst]
    exact mkNewEntries_pairwise N cap st
  have hcslen : (chainEntries news).length = N := by
    rw [chainEntries_length, hlen]
  cases hcs : chainEntries news with
  | nil =>
    rw [hcs] at hcslen
    simp at hcslen
    omega
  | cons e0 rest =>
  -- entry 0 of the chain keeps the address of the first fresh entry
  have hcs0 : (chainEntries news)[0]? = some e0 := by rw [hcs]; simp
  have he0mem : e0.desc.addr < U32_MOD := by
    cases hnews : news with
    | nil => exact absurd hnews hne
    | cons a0 t0 =>
      have haddr : descAddrs (chainEntries news) = descAddrs news :=
        chainEntries_descAddrs news
      rw [hcs, hnews] at haddr
      simp only [descAddrs, List.map_cons, List.cons.injEq] at haddr
      rw [haddr.1]
      exact hbounds a0 (by rw [hnews]; exact List.mem_cons_self a0 t0)
  have hmod : e0.desc.addr % U32_MOD = e0.desc.addr := Nat.mod_eq_of_lt he0mem
  -- the start call reduces to the chained ring
  have hstart : (RxRing.new cap).start N hw st =
      some (⟨cap, e0 :: rest, 0⟩,
        ⟨e0.desc.addr % U32_MOD, true, hw.dmarpdr_writes + 1, hw.dmasr_rps⟩,
        st2) := by
    simp only [RxRing.start, RxRing.new, List.length_nil, Nat.sub_zero, hmk,
      List.nil_append, hcs, RxRing.demand_poll]
  -- chain-structure facts transported to the chained list
  have hpwcs : (chainEntries news).Pairwise
      (fun a b => a.desc.addr < b.desc.addr) := by
    have h1 : (descAddrs news).Pairwise (fun a b => a < b) :=
      List.pairwise_map.mpr hpwnews
    have h2 : (descAddrs (chainEntries news)).Pairwise (fun a b => a < b) := by
      rw [chainEntries_descAddrs]
      exact h1
    exact List.pairwise_map.mp h2
  have hstep : ∀ (i : Nat) (x : RxRingEntry),
      i + 1 < (chainEntries news).length →
      (chainEntries news)[i]? = some x →
      x.desc.endOfRingSet = false ∧
      ∃ y, (chainEntries news)[i + 1]? = some y ∧
        x.desc.w3 = y.desc.addr := by
    intro i x hi hx
    have hi2 : i + 1 < news.length := by rw [chainEntries_length] at hi; exact hi
    obtain ⟨a, b, ha, hb, hcsi⟩ := chainEntries_getElem?_mid news i hi2
    have hxab : x = a.set_next_buffer (some b) := by
      rw [hx] at hcsi
      exact Option.some.inj hcsi
    have hbmem : b ∈ news := List.getElem?_mem hb
    have hbmod : b.desc.addr % U32_MOD = b.desc.addr :=
      Nat.mod_eq_of_lt (hbounds b hbmem)
    refine ⟨?_, ?_⟩
    · rw [hxab, set_next_some_eor]
      exact hnoeor a (List.getElem?_mem ha)
    · by_cases h2 : i + 1 + 1 < news.length
      · obtain ⟨a2, b2, ha2, _, hcsi2⟩ := chainEntries_getElem?_mid news (i + 1) h2
        have hab : a2 = b := by
          rw [hb] at ha2
          exact (Option.some.inj ha2).symm
        refine ⟨a2.set_next_buffer (some b2), hcsi2, ?_⟩
        rw [hxab, set_next_some_w3, set_next_buffer_addr, hab, hbmod]
      · have hilast : i + 1 = news.length - 1 := by omega
        obtain ⟨a3, ha3, hcs3⟩ := chainEntries_getElem?_last news hne
        have hab : a3 = b := by
          rw [← hilast] at ha3
          rw [hb] at ha3
          exact (Option.some.inj ha3).symm
        refine ⟨a3.set_next_buffer none, by rw [hilast]; exact hcs3, ?_⟩
        rw [hxab, set_next_some_w3, set_next_buffer_addr, hab, hbmod]
  have hlast : ∀ x, (chainEntries news)[(chainEntries news).length - 1]? =
      some x → x.desc.endOfRingSet = true := by
    intro x hx
    obtain ⟨a, _, hcsl⟩ := chainEntries_getElem?_last news hne
    rw [chainEntries_length] at hx
    rw [hx] at hcsl
    rw [Option.some.inj hcsl]
    exact set_next_none_eor a
  have hwalk : chainWalk e0.desc.addr (chainEntries news) N e0.desc.addr =
      some e0.desc.addr := by
    have h0lt : 0 < (chainEntries news).length := by rw [hcslen]; omega
    have := chainWalk_to_base e0.desc.addr (chainEntries news) hpwcs hstep
      hlast N 0 e0 h0lt (by omega) hcs0
    exact this
  refine ⟨⟨cap, e0 :: rest, 0⟩,
    ⟨e0.desc.addr % U32_MOD, true, hw.dmarpdr_writes + 1, hw.dmasr_rps⟩,
    st2, e0, hstart, by simp, hmod, ?_, ?_, ?_⟩
  · rw [← hcs]
    exact hcslen
  · rw [← hcs]
    exact chainEntries_countP_eor news hnoeor hne
  · show chainWalk (e0.desc.addr % U32_MOD) (e0 :: rest) N e0.desc.addr =
      some e0.desc.addr
    rw [hmod, ← hcs]
    exact hwalk

/-- Witness for C7: a fresh 3-entry ring with 1518-byte buffers chained at
addresses 0, 1536 and 3072; walking 3 steps from entry 0 returns to it. -/
theorem start_fresh_ring_chain_witness :
    ∃ r2 hw2 st2 e0,
      (RxRing.new 1518).start 3 hw0 st0 = some (r2, hw2, st2) ∧
      r2.buffers[0]? = some e0 ∧
      hw2.dmardlar = e0.desc.addr ∧
      r2.buffers.length = 3 ∧
      r2.buffers.countP (fun e => e.desc.endOfRingSet) = 1 ∧
      chainWalk hw2.dmardlar r2.buffers 3 e0.desc.addr =
        some e0.desc.addr :=
  start_fresh_ring_chain 3 1518 hw0 st0 (by decide) (by decide) (by decide)

end Stm32Eth
